import Mathlib

/-!
# Verification of the static hash index (projeto-indice-hash)

Shallow embedding of the repository's JavaScript source. The repository
contains three variants of the same application:

* variant 1: the first document of `src/script.js` (lines 8-424) — buckets
  with a primary `items` area and an inline `overflow` area,
  `numBuckets = totalWords`, and the hash applied to the lowercased word at
  build time;
* variant 2: the second document of `src/script.js` (lines 428-847) — same
  bucket shape, `numBuckets = ceil(totalWords/bucketSize) + 1`, and the hash
  applied to the raw word at build time (while lookup hashes the lowercased
  key);
* variant 0: `src/unnamed/part_000` — flat buckets (a bucket is a plain list
  of entries), no case normalization anywhere.

JavaScript machine arithmetic (the 32-bit wrap-around of `(hash * 33) ^ c`)
is modelled with explicit `% 2^32` on `Nat`; fallible operations (reading an
`undefined` bucket) return `Except`.
-/

namespace IndexHash

/-- A key is a JavaScript string, modelled as its list of UTF-16 code units. -/
abbrev Key := List Nat

/-- ASCII model of `String.prototype.toLowerCase` on one code unit:
uppercase letters `A`-`Z` (65-90) map to `a`-`z` (97-122). -/
def toLowerCode (c : Nat) : Nat := if 65 ≤ c ∧ c ≤ 90 then c + 32 else c

/-- ASCII model of `String.prototype.toLowerCase`. -/
def toLower (k : Key) : Key := k.map toLowerCode

/-- One iteration of the djb2 loop `hash = (hash * 33) ^ key.charCodeAt(i)`.
JavaScript's `^` converts both operands to 32-bit integers, so the state is
kept as the 32-bit bit pattern (a `Nat` below `2^32`); multiplying the signed
value by 33 agrees with multiplying the pattern modulo `2^32`. -/
def hashStep (h c : Nat) : Nat := ((h * 33) % 4294967296) ^^^ c

/-- The absolute value of the signed 32-bit hash accumulator, as computed by
`Math.abs` on the final signed value (`hashFunction`, lines 174-180 /
561-567 of `src/script.js` and 179-189 of `src/unnamed/part_000`). -/
def hashAbs (k : Key) : Nat :=
  let u := k.foldl hashStep 5381
  if u < 2147483648 then u else 4294967296 - u

/-- `hashFunction(key)` = `Math.abs(hash % config.numBuckets)`: for a
non-negative modulus JavaScript's remainder followed by `Math.abs` equals
`|hash| % numBuckets`. -/
def hashFunction (key : Key) (numBuckets : Nat) : Nat :=
  hashAbs key % numBuckets

/-- An index entry `{ key: word, page: pageIndex }`. -/
structure Entry where
  key : Key
  page : Nat
deriving DecidableEq, Repr

/-- A bucket of variants 1 and 2: `{ items: [], overflow: [] }`. -/
structure Bucket where
  items : List Entry
  overflow : List Entry
deriving DecidableEq, Repr

/-- The `stats` object `{ collisions, overflows }`. -/
structure Stats where
  collisions : Nat
  overflows : Nat
deriving DecidableEq, Repr

/-- A freshly created bucket (`createBuckets`). -/
def emptyBucket : Bucket := ⟨[], []⟩

/-- `createBuckets` for variants 1/2: an array of `n` empty buckets. -/
def mkBuckets (n : Nat) : List Bucket := List.replicate n emptyBucket

/-- `createBuckets` for variant 0: an array of `n` empty flat buckets. -/
def mkFlatBuckets (n : Nat) : List (List Entry) := List.replicate n []

/-- `Math.ceil(a / b)` for natural numbers (`b > 0`); the pagination and
bucket-count formulas use it on exact integer ratios. -/
def ceilDiv (a b : Nat) : Nat := (a + b - 1) / b

/-- The slicing loop of `createPages`:
`for (let i = 0; i < totalWords; i += wordsPerPage) pages.push(words.slice(i, i + wordsPerPage))`.
The fuel argument (instantiated with the word-count, which bounds the number
of iterations whenever `wordsPerPage ≥ 1`) makes the recursion structural. -/
def createPagesAux (w : Nat) : Nat → List α → List (List α)
  | _, [] => []
  | 0, _ :: _ => []
  | fuel + 1, x :: xs => (x :: xs).take w :: createPagesAux w fuel ((x :: xs).drop w)

/-- `createPages` (lines 131-143 / 530-543 of `src/script.js`, 138-155 of
`part_000`), as a function of the computed `wordsPerPage` and the word list. -/
def createPages (w : Nat) (words : List α) : List (List α) :=
  createPagesAux w words.length words

/-- `array[i] = b` on a JavaScript array (out-of-range writes do not occur in
the modelled flows; here they leave the list unchanged). -/
def setAt : List α → Nat → α → List α
  | [], _, _ => []
  | _ :: xs, 0, b => b :: xs
  | x :: xs, i + 1, b => x :: setAt xs i b

/-- One insertion of `populateHashTable` for variants 1/2 (lines 196-216 /
576-592 of `src/script.js`): hash the normalized word (`norm` is
`toLower` in variant 1 and the identity in variant 2), then append to the
primary `items` area if it is below `bucketSize` (counting a collision when
the primary area was non-empty) and to the `overflow` area otherwise
(counting an overflow). An out-of-range bucket access — impossible after
`createBuckets` ran — leaves the accumulator unchanged. -/
def populateStep (norm : Key → Key) (bucketSize numBuckets pageIndex : Nat)
    (acc : List Bucket × Stats) (word : Key) : List Bucket × Stats :=
  let i := hashFunction (norm word) numBuckets
  match acc.1.get? i with
  | none => acc
  | some b =>
    let entry : Entry := ⟨word, pageIndex⟩
    if b.items.length < bucketSize then
      (setAt acc.1 i { b with items := b.items ++ [entry] },
        if 0 < b.items.length then ⟨acc.2.collisions + 1, acc.2.overflows⟩ else acc.2)
    else
      (setAt acc.1 i { b with overflow := b.overflow ++ [entry] },
        ⟨acc.2.collisions, acc.2.overflows + 1⟩)

/-- The `pages.forEach((page, pageIndex) => page.forEach(word => ...))` loop
of `populateHashTable`, variants 1/2. -/
def populatePages (norm : Key → Key) (bucketSize numBuckets : Nat) :
    List (List Key) → Nat → List Bucket × Stats → List Bucket × Stats
  | [], _, acc => acc
  | page :: rest, pageIndex, acc =>
      populatePages norm bucketSize numBuckets rest (pageIndex + 1)
        (page.foldl (populateStep norm bucketSize numBuckets pageIndex) acc)

/-- `populateHashTable` for variants 1/2: reset the statistics, then insert
every word of every page. -/
def populateHashTable (norm : Key → Key) (bucketSize numBuckets : Nat)
    (pages : List (List Key)) (table : List Bucket) : List Bucket × Stats :=
  populatePages norm bucketSize numBuckets pages 0 (table, ⟨0, 0⟩)

/-- One insertion of `populateHashTable` for variant 0 (lines 195-223 of
`part_000`): a flat bucket; a collision is counted whenever the bucket is
non-empty, an overflow whenever it already holds `bucketSize` entries, and
the entry is always pushed. -/
def populateStep0 (bucketSize numBuckets pageIndex : Nat)
    (acc : List (List Entry) × Stats) (word : Key) : List (List Entry) × Stats :=
  let i := hashFunction word numBuckets
  match acc.1.get? i with
  | none => acc
  | some b =>
    let s1 : Stats :=
      if 0 < b.length then ⟨acc.2.collisions + 1, acc.2.overflows⟩ else acc.2
    let s2 : Stats :=
      if bucketSize ≤ b.length then ⟨s1.collisions, s1.overflows + 1⟩ else s1
    (setAt acc.1 i (b ++ [⟨word, pageIndex⟩]), s2)

/-- The page loop of variant 0's `populateHashTable`. -/
def populatePages0 (bucketSize numBuckets : Nat) :
    List (List Key) → Nat → List (List Entry) × Stats → List (List Entry) × Stats
  | [], _, acc => acc
  | page :: rest, pageIndex, acc =>
      populatePages0 bucketSize numBuckets rest (pageIndex + 1)
        (page.foldl (populateStep0 bucketSize numBuckets pageIndex) acc)

/-- `populateHashTable` for variant 0. -/
def populateHashTable0 (bucketSize numBuckets : Nat)
    (pages : List (List Key)) (table : List (List Entry)) : List (List Entry) × Stats :=
  populatePages0 bucketSize numBuckets pages 0 (table, ⟨0, 0⟩)

/-- The only runtime error the modelled queries can raise: accessing a field
or iterating over `hashTable[bucketIndex]` when that element is `undefined`
(index out of range, or a `NaN` index produced by `% 0`). -/
inductive JsError where
  | typeError
deriving DecidableEq, Repr

/-- What a query displays: `found`, the 0-based page (present when found) and
the access cost. -/
structure QueryResult where
  found : Bool
  page : Option Nat
  cost : Nat
deriving DecidableEq, Repr

/-- `searchWithIndex` of variants 1/2 (lines 229-284 / 598-653 of
`src/script.js`), after the empty-key early return: the query key is
lowercased, hashed, and the bucket's `items` then `overflow` lists are
scanned for the first entry whose lowercased key matches (the `for`/`break`
loops are `List.find?`). `cost` starts at 1 and is incremented exactly when
the key is found. With `numBuckets = 0` the JavaScript index is `NaN` and
`hashTable[NaN]` is `undefined`, so iterating its `items` throws. -/
def searchWithIndex (numBuckets : Nat) (table : List Bucket) (rawKey : Key) :
    Except JsError QueryResult :=
  let key := toLower rawKey
  match (if numBuckets = 0 then none else table.get? (hashFunction key numBuckets)) with
  | none => .error .typeError
  | some bucket =>
    let cost := 1
    match bucket.items.find? (fun item => toLower item.key == key) with
    | some item => .ok ⟨true, some item.page, cost + 1⟩
    | none =>
      match bucket.overflow.find? (fun item => toLower item.key == key) with
      | some item => .ok ⟨true, some item.page, cost + 1⟩
      | none => .ok ⟨false, none, cost⟩

/-- `searchWithIndex` of variant 0 (lines 228-275 of `part_000`): no case
normalization, flat bucket, `cost` = 1 plus 1 when found. -/
def searchWithIndex0 (numBuckets : Nat) (table : List (List Entry)) (key : Key) :
    Except JsError QueryResult :=
  match (if numBuckets = 0 then none else table.get? (hashFunction key numBuckets)) with
  | none => .error .typeError
  | some bucket =>
    let cost := 1
    match bucket.find? (fun item => item.key == key) with
    | some item => .ok ⟨true, some item.page, cost + 1⟩
    | none => .ok ⟨false, none, cost⟩

/-- The page loop shared by both `performTableScan` implementations:
`cost++` on every page visited, stop at the first page containing a match. -/
def scanLoop (p : Key → Bool) : List (List Key) → Nat → Nat → QueryResult
  | [], _, cost => ⟨false, none, cost⟩
  | page :: rest, pageIndex, cost =>
      if page.any p then ⟨true, some pageIndex, cost + 1⟩
      else scanLoop p rest (pageIndex + 1) (cost + 1)

/-- `performTableScan` of variants 1/2 (lines 292-334 / 658-700 of
`src/script.js`), after the empty-key early return: pages are visited in id
order and matching is case-insensitive (`word.toLowerCase() === key` with the
key already lowercased; for a non-empty key the truthiness test on the found
word is equivalent to the match test). -/
def performTableScan (pages : List (List Key)) (rawKey : Key) : QueryResult :=
  let key := toLower rawKey
  scanLoop (fun w => toLower w == key) pages 0 0

/-- `performTableScan` of variant 0 (lines 280-319 of `part_000`):
`page.includes(key)`, exact comparison. -/
def performTableScan0 (pages : List (List Key)) (key : Key) : QueryResult :=
  scanLoop (fun w => w == key) pages 0 0

/-- The state built by one successful `handleBuildIndex` run. -/
structure Built where
  pages : List (List Key)
  table : List Bucket
  numBuckets : Nat
  stats : Stats
deriving DecidableEq, Repr

/-- The state built by one successful variant-0 `handleBuildIndex` run. -/
structure Built0 where
  pages : List (List Key)
  ftable : List (List Entry)
  numBuckets : Nat
  stats : Stats
deriving DecidableEq, Repr

/-- The build pipeline of variant 1 (`createPages`; `createBuckets` with
`numBuckets = totalWords`; `populateHashTable` hashing the lowercased word),
for a validated page count. -/
def buildIndex1 (words : List Key) (numPagesReq : Nat) : Built :=
  let totalWords := words.length
  let wordsPerPage := ceilDiv totalWords numPagesReq
  let pages := createPages wordsPerPage words
  let numBuckets := totalWords
  let ts := populateHashTable toLower 5 numBuckets pages (mkBuckets numBuckets)
  ⟨pages, ts.1, numBuckets, ts.2⟩

/-- The build pipeline of variant 2 (`createBuckets` with
`numBuckets = ceil(totalWords / bucketSize) + 1`; `populateHashTable`
hashing the raw word). -/
def buildIndex2 (words : List Key) (numPagesReq : Nat) : Built :=
  let totalWords := words.length
  let wordsPerPage := ceilDiv totalWords numPagesReq
  let pages := createPages wordsPerPage words
  let numBuckets := ceilDiv totalWords 5 + 1
  let ts := populateHashTable (fun w => w) 5 numBuckets pages (mkBuckets numBuckets)
  ⟨pages, ts.1, numBuckets, ts.2⟩

/-- The build pipeline of variant 0 (flat buckets,
`numBuckets = ceil(totalWords / bucketSize) + 1`, raw-case hashing). -/
def buildIndex0 (words : List Key) (numPagesReq : Nat) : Built0 :=
  let totalWords := words.length
  let wordsPerPage := ceilDiv totalWords numPagesReq
  let pages := createPages wordsPerPage words
  let numBuckets := ceilDiv totalWords 5 + 1
  let ts := populateHashTable0 5 numBuckets pages (mkFlatBuckets numBuckets)
  ⟨pages, ts.1, numBuckets, ts.2⟩

/-- Decimal digit test for `parseInt`. -/
def isDecDigit (c : Char) : Bool := 48 ≤ c.toNat && c.toNat ≤ 57

/-- The digit-prefix phase of `parseInt(s, 10)`: read the longest prefix of
decimal digits; `NaN` (here `none`) when it is empty. -/
def parseDecDigits (s : List Char) : Option Nat :=
  let ds := s.takeWhile isDecDigit
  if ds.isEmpty then none
  else some (ds.foldl (fun a c => a * 10 + (c.toNat - 48)) 0)

/-- Model of JavaScript `parseInt(s, 10)`: skip leading whitespace, read an
optional sign and then the longest decimal-digit prefix, ignoring everything
after it (so `parseInt("3.7") = 3`); `none` models `NaN`. -/
def jsParseInt (s : List Char) : Option Int :=
  let t := s.dropWhile (fun c => c == ' ' || c == '\t' || c == '\n' || c == '\r')
  match t with
  | '-' :: rest => (parseDecDigits rest).map (fun n => -(n : Int))
  | '+' :: rest => (parseDecDigits rest).map (fun n => (n : Int))
  | _ => (parseDecDigits t).map (fun n => (n : Int))

/-- The build error surfaced by the `alert` in `handleBuildIndex`
(`"Por favor, insira um número de páginas válido."`). -/
inductive BuildErr where
  | invalidParameter
deriving DecidableEq, Repr

/-- The mutable application state (`words`, `pages`, `hashTable`,
`config.numBuckets`, `stats`) of variant 1. -/
structure AppState where
  words : List Key
  pages : List (List Key)
  table : List Bucket
  numBuckets : Nat
  stats : Stats
deriving DecidableEq, Repr

/-- The state before any build: all arrays empty, `config.numBuckets = 0`. -/
def initialState : AppState := ⟨[], [], [], 0, ⟨0, 0⟩⟩

/-- `handleBuildIndex` of variant 1 (lines 77-121 of `src/script.js`) with a
successful file fetch: `parseInt` the page-count input; if it is `NaN` or
`≤ 0`, alert and return before touching any state; otherwise reset the state
and rebuild everything from the fetched word list. -/
def handleBuildIndex (input : List Char) (fileWords : List Key) (st : AppState) :
    Option BuildErr × AppState :=
  match jsParseInt input with
  | none => (some .invalidParameter, st)
  | some v =>
    if v ≤ 0 then (some .invalidParameter, st)
    else
      let b := buildIndex1 fileWords v.toNat
      (none, ⟨fileWords, b.pages, b.table, b.numBuckets, b.stats⟩)

/-- The list of keys of all entries of a variant-1/2 bucket, primary area
first. -/
def bucketKeys (b : Bucket) : List Key := (b.items ++ b.overflow).map Entry.key

/-- The multiset of keys stored anywhere in a variant-1/2 table. -/
def tableKeys : List Bucket → Multiset Key
  | [] => 0
  | b :: t => (bucketKeys b : Multiset Key) + tableKeys t

/-- Total number of entries in the primary areas of a table. -/
def sumItems : List Bucket → Nat
  | [] => 0
  | b :: t => b.items.length + sumItems t

/-- Total number of entries in the overflow areas of a table. -/
def sumOverflow : List Bucket → Nat
  | [] => 0
  | b :: t => b.overflow.length + sumOverflow t

/-- Number of buckets with a non-empty primary area. -/
def nonEmptyBuckets : List Bucket → Nat
  | [] => 0
  | b :: t => (if b.items = [] then 0 else 1) + nonEmptyBuckets t

/-- The multiset of keys stored in a variant-0 (flat) table. -/
def flatKeys : List (List Entry) → Multiset Key
  | [] => 0
  | b :: t => ((b.map Entry.key : List Key) : Multiset Key) + flatKeys t

/-- Total number of entries in a variant-0 table. -/
def flatTotal : List (List Entry) → Nat
  | [] => 0
  | b :: t => b.length + flatTotal t

/-- The behaviour the specification demands of a sequential scan returning
`r` over `pages` with page-match predicate `matches`: either no page matches
and `r` reports not-found with cost = page count, or `r` reports the first
matching page `j` with cost `j + 1` (one unit per page visited, the final
page included). -/
def ScanBehaviour (pages : List (List Key)) (pred : Key → Bool) (r : QueryResult) : Prop :=
  (r = ⟨false, none, pages.length⟩ ∧ ∀ pg ∈ pages, ∀ w ∈ pg, pred w = false)
  ∨ ∃ j, j < pages.length ∧ r = ⟨true, some j, j + 1⟩
      ∧ (∃ w ∈ pages.getD j [], pred w = true)
      ∧ ∀ k, k < j → ∀ w ∈ pages.getD k [], pred w = false

/-- Structural placement invariant of a variant-1/2 table: no primary area
ever exceeds `bucketSize`, and a non-empty overflow area implies the primary
area is exactly full. -/
def GoodTable (bucketSize : Nat) (t : List Bucket) : Prop :=
  ∀ b ∈ t, b.items.length ≤ bucketSize ∧ (b.overflow ≠ [] → b.items.length = bucketSize)

/-- The statistics policy actually implemented by `populateHashTable` of
variants 1/2, expressed on the observable result: placement respects
`GoodTable`; `overflows` equals the total number of entries stored in
overflow areas (one increment per overflow placement); and `collisions`
equals the number of primary insertions into an already non-empty bucket,
i.e. the number of primary entries minus the number of non-empty primary
buckets (the per-insertion policy, not the per-bucket one). -/
def StatsInv (bucketSize : Nat) (acc : List Bucket × Stats) : Prop :=
  GoodTable bucketSize acc.1
  ∧ acc.2.overflows = sumOverflow acc.1
  ∧ acc.2.collisions + nonEmptyBuckets acc.1 = sumItems acc.1

/-! ## Helper lemmas -/

lemma ceilDiv_pos {T N : Nat} (hN : 0 < N) (hT : 0 < T) : 0 < ceilDiv T N := by
  unfold ceilDiv
  rw [Nat.lt_iff_add_one_le, Nat.zero_add, Nat.one_le_div_iff hN]
  omega

lemma le_mul_ceilDiv {N : Nat} (hN : 0 < N) (T : Nat) : T ≤ N * ceilDiv T N := by
  unfold ceilDiv
  have h1 := Nat.div_add_mod (T + N - 1) N
  have h2 := Nat.mod_lt (T + N - 1) hN
  omega

lemma ceilDiv_le_of_le {T N w : Nat} (hw : 0 < w) (h : T ≤ N * w) : ceilDiv T w ≤ N := by
  unfold ceilDiv
  rw [← Nat.lt_succ_iff, Nat.div_lt_iff_lt_mul hw, Nat.succ_mul]
  omega

lemma createPagesAux_nil_fuel (w : Nat) (fuel : Nat) :
    createPagesAux w fuel ([] : List α) = [] := by
  cases fuel <;> rfl

lemma createPagesAux_ne_nil {w : Nat} (hw : 0 < w) {fuel : Nat} {xs : List α}
    (hfuel : xs.length ≤ fuel) (hxs : xs ≠ []) : createPagesAux w fuel xs ≠ [] := by
  cases fuel with
  | zero => cases xs with
    | nil => exact absurd rfl hxs
    | cons x t => simp at hfuel
  | succ fuel =>
    cases xs with
    | nil => exact absurd rfl hxs
    | cons x t =>
      cases w with
      | zero => exact absurd hw (by omega)
      | succ w => simp [createPagesAux]

lemma createPagesAux_flatten {w : Nat} (hw : 0 < w) :
    ∀ (fuel : Nat) (xs : List α), xs.length ≤ fuel →
      (createPagesAux w fuel xs).flatten = xs := by
  intro fuel
  induction fuel with
  | zero =>
    intro xs hx
    cases xs with
    | nil => rfl
    | cons x t => simp at hx
  | succ fuel ih =>
    intro xs hx
    cases xs with
    | nil => rfl
    | cons x t =>
      cases w with
      | zero => exact absurd hw (by omega)
      | succ w =>
        have hlen : ((x :: t).drop (w + 1)).length ≤ fuel := by
          rw [List.length_drop]; simp at hx ⊢; omega
        simp only [createPagesAux, List.flatten_cons, ih _ hlen]
        exact List.take_append_drop _ _

lemma createPagesAux_length_eq {w : Nat} (hw : 0 < w) :
    ∀ (fuel : Nat) (xs : List α), xs.length ≤ fuel →
      (createPagesAux w fuel xs).length = ceilDiv xs.length w := by
  intro fuel
  induction fuel with
  | zero =>
    intro xs hx
    cases xs with
    | nil =>
      simp only [createPagesAux, List.length_nil]
      unfold ceilDiv
      rw [Nat.div_eq_of_lt (by omega)]
    | cons x t => simp at hx
  | succ fuel ih =>
    intro xs hx
    cases xs with
    | nil =>
      simp only [createPagesAux, List.length_nil]
      unfold ceilDiv
      rw [Nat.div_eq_of_lt (by omega)]
    | cons x t =>
      cases w with
      | zero => exact absurd hw (by omega)
      | succ w =>
        have hlen : ((x :: t).drop (w + 1)).length ≤ fuel := by
          rw [List.length_drop]; simp at hx ⊢; omega
        simp only [createPagesAux, List.length_cons, ih _ hlen, List.length_drop]
        by_cases hcase : t.length + 1 ≤ w + 1
        · have h0 : t.length + 1 - (w + 1) = 0 := by omega
          rw [h0]
          unfold ceilDiv
          have hA : (0 + (w + 1) - 1) / (w + 1) = 0 := Nat.div_eq_of_lt (by omega)
          have hB : (t.length + 1 + (w + 1) - 1) / (w + 1) = 1 :=
            Nat.div_eq_of_lt_le (by omega) (by omega)
          rw [hA, hB]
        · unfold ceilDiv
          have e : t.length + 1 + (w + 1) - 1
              = ((t.length + 1 - (w + 1)) + (w + 1) - 1) + (w + 1) := by omega
          rw [e, Nat.add_div_right _ (by omega)]

lemma createPagesAux_chunk_le {w : Nat} :
    ∀ (fuel : Nat) (xs : List α), ∀ p ∈ createPagesAux w fuel xs, p.length ≤ w := by
  intro fuel
  induction fuel with
  | zero =>
    intro xs p hp
    cases xs with
    | nil => simp [createPagesAux] at hp
    | cons x t => simp [createPagesAux] at hp
  | succ fuel ih =>
    intro xs p hp
    cases xs with
    | nil => simp [createPagesAux] at hp
    | cons x t =>
      simp only [createPagesAux, List.mem_cons] at hp
      rcases hp with rfl | hp
      · rw [List.length_take]
        exact inf_le_left
      · exact ih _ p hp

lemma createPagesAux_dropLast {w : Nat} (hw : 0 < w) :
    ∀ (fuel : Nat) (xs : List α), xs.length ≤ fuel →
      ∀ p ∈ (createPagesAux w fuel xs).dropLast, p.length = w := by
  intro fuel
  induction fuel with
  | zero =>
    intro xs hx p hp
    cases xs with
    | nil => simp [createPagesAux] at hp
    | cons x t => simp at hx
  | succ fuel ih =>
    intro xs hx p hp
    cases xs with
    | nil => simp [createPagesAux] at hp
    | cons x t =>
      cases w with
      | zero => exact absurd hw (by omega)
      | succ w =>
        have hlen : ((x :: t).drop (w + 1)).length ≤ fuel := by
          rw [List.length_drop]; simp at hx ⊢; omega
        simp only [createPagesAux] at hp
        cases hrest : createPagesAux (w + 1) fuel ((x :: t).drop (w + 1)) with
        | nil => rw [hrest, List.dropLast_single] at hp; simp at hp
        | cons q qs =>
          rw [hrest, List.dropLast_cons₂, List.mem_cons] at hp
          rcases hp with rfl | hp
          · have hdrop : (x :: t).drop (w + 1) ≠ [] := by
              intro hd
              rw [hd, createPagesAux_nil_fuel] at hrest
              exact List.noConfusion hrest
            have : w + 1 < (x :: t).length := by
              by_contra hle
              exact hdrop (List.drop_eq_nil_of_le (by omega))
            rw [List.length_take]; omega
          · exact ih _ hlen p (by rw [hrest]; exact hp)

lemma createPages_flatten {w : Nat} (hw : 0 < w) (xs : List α) :
    (createPages w xs).flatten = xs :=
  createPagesAux_flatten hw xs.length xs le_rfl

lemma createPages_length_eq {w : Nat} (hw : 0 < w) (xs : List α) :
    (createPages w xs).length = ceilDiv xs.length w :=
  createPagesAux_length_eq hw xs.length xs le_rfl

lemma any_false_iff (l : List Key) (p : Key → Bool) :
    l.any p = false ↔ ∀ w ∈ l, p w = false := by
  rw [List.any_eq_false]
  constructor
  · intro h w hw
    exact Bool.eq_false_iff.mpr (h w hw)
  · intro h w hw
    rw [h w hw]
    exact Bool.false_ne_true

lemma scanLoop_spec (p : Key → Bool) :
    ∀ (pages : List (List Key)) (i c : Nat),
      ((∀ pg ∈ pages, pg.any p = false)
          ∧ scanLoop p pages i c = ⟨false, none, c + pages.length⟩)
      ∨ ∃ j, j < pages.length ∧ (pages.getD j []).any p = true
          ∧ (∀ k, k < j → (pages.getD k []).any p = false)
          ∧ scanLoop p pages i c = ⟨true, some (i + j), c + (j + 1)⟩ := by
  intro pages
  induction pages with
  | nil =>
    intro i c
    left
    exact ⟨by simp, by simp [scanLoop]⟩
  | cons pg rest ih =>
    intro i c
    by_cases hpg : pg.any p = true
    · right
      refine ⟨0, by simp, by simpa using hpg, by omega, ?_⟩
      simp [scanLoop, hpg]
    · have hpg' : pg.any p = false := Bool.eq_false_iff.mpr hpg
      rcases ih (i + 1) (c + 1) with ⟨hall, heq⟩ | ⟨j, hj, hmat, hbef, heq⟩
      · left
        constructor
        · intro q hq
          rcases List.mem_cons.mp hq with rfl | hq
          · exact hpg'
          · exact hall q hq
        · rw [scanLoop, if_neg (by rw [hpg']; exact Bool.false_ne_true), heq]
          simp [Nat.add_comm, Nat.add_assoc]
          omega
      · right
        refine ⟨j + 1, by simpa using hj, by simpa using hmat, ?_, ?_⟩
        · intro k hk
          cases k with
          | zero => simpa using hpg'
          | succ k => rw [List.getD_cons_succ]; exact hbef k (by omega)
        · rw [scanLoop, if_neg (by rw [hpg']; exact Bool.false_ne_true), heq]
          have e1 : i + 1 + j = i + (j + 1) := by omega
          have e2 : c + 1 + (j + 1) = c + (j + 1 + 1) := by omega
          rw [e1, e2]

lemma searchWithIndex_ok_cost {nb : Nat} {t : List Bucket} {k : Key} {r : QueryResult}
    (h : searchWithIndex nb t k = .ok r) :
    r.cost = (if r.found = true then 2 else 1) ∧ (r.found = false → r.cost = 1) := by
  simp only [searchWithIndex] at h
  split at h
  · exact absurd h (by simp)
  · split at h
    · simp only [Except.ok.injEq] at h
      subst h
      exact ⟨rfl, by simp⟩
    · split at h
      · simp only [Except.ok.injEq] at h
        subst h
        exact ⟨rfl, by simp⟩
      · simp only [Except.ok.injEq] at h
        subst h
        exact ⟨rfl, fun _ => rfl⟩

lemma searchWithIndex0_ok_cost {nb : Nat} {t : List (List Entry)} {k : Key} {r : QueryResult}
    (h : searchWithIndex0 nb t k = .ok r) :
    r.cost = (if r.found = true then 2 else 1) ∧ (r.found = false → r.cost = 1) := by
  simp only [searchWithIndex0] at h
  split at h
  · exact absurd h (by simp)
  · split at h
    · simp only [Except.ok.injEq] at h
      subst h
      exact ⟨rfl, by simp⟩
    · simp only [Except.ok.injEq] at h
      subst h
      exact ⟨rfl, fun _ => rfl⟩

lemma setAt_length : ∀ (l : List α) (i : Nat) (b : α), (setAt l i b).length = l.length := by
  intro l
  induction l with
  | nil => intro i b; rfl
  | cons x xs ih =>
    intro i b
    cases i with
    | zero => rfl
    | succ n => simp only [setAt, List.length_cons, ih]

lemma mem_setAt : ∀ (l : List α) (i : Nat) (b x : α), x ∈ setAt l i b → x = b ∨ x ∈ l := by
  intro l
  induction l with
  | nil => intro i b x hx; simp [setAt] at hx
  | cons y xs ih =>
    intro i b x hx
    cases i with
    | zero =>
      rcases List.mem_cons.mp hx with rfl | hx
      · exact Or.inl rfl
      · exact Or.inr (List.mem_cons_of_mem _ hx)
    | succ n =>
      rcases List.mem_cons.mp hx with rfl | hx
      · exact Or.inr (List.mem_cons_self _ _)
      · rcases ih n b x hx with rfl | hx
        · exact Or.inl rfl
        · exact Or.inr (List.mem_cons_of_mem _ hx)

lemma sumItems_setAt : ∀ (l : List Bucket) (i : Nat) (a b : Bucket), l.get? i = some a →
    sumItems (setAt l i b) + a.items.length = sumItems l + b.items.length := by
  intro l
  induction l with
  | nil => intro i a b h; simp [List.get?] at h
  | cons x xs ih =>
    intro i a b h
    cases i with
    | zero =>
      simp only [List.get?] at h
      cases h
      simp only [setAt, sumItems]
      omega
    | succ n =>
      simp only [List.get?] at h
      simp only [setAt, sumItems]
      have := ih n a b h
      omega

lemma sumOverflow_setAt : ∀ (l : List Bucket) (i : Nat) (a b : Bucket), l.get? i = some a →
    sumOverflow (setAt l i b) + a.overflow.length = sumOverflow l + b.overflow.length := by
  intro l
  induction l with
  | nil => intro i a b h; simp [List.get?] at h
  | cons x xs ih =>
    intro i a b h
    cases i with
    | zero =>
      simp only [List.get?] at h
      cases h
      simp only [setAt, sumOverflow]
      omega
    | succ n =>
      simp only [List.get?] at h
      simp only [setAt, sumOverflow]
      have := ih n a b h
      omega

lemma nonEmptyBuckets_setAt :
    ∀ (l : List Bucket) (i : Nat) (a b : Bucket), l.get? i = some a →
      nonEmptyBuckets (setAt l i b) + (if a.items = [] then 0 else 1)
        = nonEmptyBuckets l + (if b.items = [] then 0 else 1) := by
  intro l
  induction l with
  | nil => intro i a b h; simp [List.get?] at h
  | cons x xs ih =>
    intro i a b h
    cases i with
    | zero =>
      simp only [List.get?] at h
      cases h
      simp only [setAt, nonEmptyBuckets]
      omega
    | succ n =>
      simp only [List.get?] at h
      simp only [setAt, nonEmptyBuckets]
      have := ih n a b h
      omega

lemma tableKeys_setAt : ∀ (l : List Bucket) (i : Nat) (a b : Bucket), l.get? i = some a →
    tableKeys (setAt l i b) + (bucketKeys a : Multiset Key)
      = tableKeys l + (bucketKeys b : Multiset Key) := by
  intro l
  induction l with
  | nil => intro i a b h; simp [List.get?] at h
  | cons x xs ih =>
    intro i a b h
    cases i with
    | zero =>
      simp only [List.get?] at h
      cases h
      simp only [setAt, tableKeys]
      abel
    | succ n =>
      simp only [List.get?] at h
      simp only [setAt, tableKeys]
      rw [add_assoc, ih n a b h, ← add_assoc]

lemma flatKeys_setAt :
    ∀ (l : List (List Entry)) (i : Nat) (a b : List Entry), l.get? i = some a →
      flatKeys (setAt l i b) + ((a.map Entry.key : List Key) : Multiset Key)
        = flatKeys l + ((b.map Entry.key : List Key) : Multiset Key) := by
  intro l
  induction l with
  | nil => intro i a b h; simp [List.get?] at h
  | cons x xs ih =>
    intro i a b h
    cases i with
    | zero =>
      simp only [List.get?] at h
      cases h
      simp only [setAt, flatKeys]
      abel
    | succ n =>
      simp only [List.get?] at h
      simp only [setAt, flatKeys]
      rw [add_assoc, ih n a b h, ← add_assoc]

lemma flatTotal_setAt :
    ∀ (l : List (List Entry)) (i : Nat) (a b : List Entry), l.get? i = some a →
      flatTotal (setAt l i b) + a.length = flatTotal l + b.length := by
  intro l
  induction l with
  | nil => intro i a b h; simp [List.get?] at h
  | cons x xs ih =>
    intro i a b h
    cases i with
    | zero =>
      simp only [List.get?] at h
      cases h
      simp only [setAt, flatTotal]
      omega
    | succ n =>
      simp only [List.get?] at h
      simp only [setAt, flatTotal]
      have := ih n a b h
      omega

lemma bucketKeys_push_items (b : Bucket) (e : Entry) :
    ((bucketKeys ⟨b.items ++ [e], b.overflow⟩ : List Key) : Multiset Key)
      = (bucketKeys b : Multiset Key) + {e.key} := by
  simp only [bucketKeys, List.map_append, List.map_cons, List.map_nil]
  rw [← Multiset.coe_add, ← Multiset.coe_add, ← Multiset.coe_add, Multiset.coe_singleton]
  abel

lemma bucketKeys_push_overflow (b : Bucket) (e : Entry) :
    ((bucketKeys ⟨b.items, b.overflow ++ [e]⟩ : List Key) : Multiset Key)
      = (bucketKeys b : Multiset Key) + {e.key} := by
  simp only [bucketKeys, List.map_append, List.map_cons, List.map_nil]
  rw [← Multiset.coe_add, ← Multiset.coe_add, ← Multiset.coe_add, Multiset.coe_singleton]
  abel

lemma flatBucket_push (b : List Entry) (e : Entry) :
    (((b ++ [e]).map Entry.key : List Key) : Multiset Key)
      = ((b.map Entry.key : List Key) : Multiset Key) + {e.key} := by
  simp only [List.map_append, List.map_cons, List.map_nil]
  rw [← Multiset.coe_add, Multiset.coe_singleton]

lemma populateStep_length (norm : Key → Key) (bs nb pi : Nat)
    (acc : List Bucket × Stats) (w : Key) :
    (populateStep norm bs nb pi acc w).1.length = acc.1.length := by
  simp only [populateStep]
  split
  · rfl
  · split <;> simp [setAt_length]

lemma populateStep_keys (norm : Key → Key) (bs nb pi : Nat)
    (acc : List Bucket × Stats) (w : Key) (hn : 0 < nb) (hlen : acc.1.length = nb) :
    tableKeys (populateStep norm bs nb pi acc w).1
      = tableKeys acc.1 + {w} := by
  have hi : hashFunction (norm w) nb < acc.1.length := by
    rw [hlen]; exact Nat.mod_lt _ hn
  have hb := List.get?_eq_get hi
  simp only [populateStep, hb]
  split
  · apply add_right_cancel (b := (bucketKeys (acc.1.get ⟨hashFunction (norm w) nb, hi⟩)
      : Multiset Key))
    rw [tableKeys_setAt _ _ _ _ hb, bucketKeys_push_items]
    abel
  · apply add_right_cancel (b := (bucketKeys (acc.1.get ⟨hashFunction (norm w) nb, hi⟩)
      : Multiset Key))
    rw [tableKeys_setAt _ _ _ _ hb, bucketKeys_push_overflow]
    abel

lemma populateFold_keys (norm : Key → Key) (bs nb pi : Nat) (hn : 0 < nb) :
    ∀ (ws : List Key) (acc : List Bucket × Stats), acc.1.length = nb →
      (ws.foldl (populateStep norm bs nb pi) acc).1.length = nb
      ∧ tableKeys (ws.foldl (populateStep norm bs nb pi) acc).1
          = tableKeys acc.1 + (ws : Multiset Key) := by
  intro ws
  induction ws with
  | nil =>
    intro acc h
    exact ⟨h, by simp⟩
  | cons w ws ih =>
    intro acc h
    have hsl : (populateStep norm bs nb pi acc w).1.length = nb := by
      rw [populateStep_length]; exact h
    obtain ⟨hl, hk⟩ := ih (populateStep norm bs nb pi acc w) hsl
    refine ⟨hl, ?_⟩
    rw [List.foldl_cons, hk, populateStep_keys norm bs nb pi acc w hn h,
      ← Multiset.cons_coe, ← Multiset.singleton_add]
    abel

lemma populatePages_keys (norm : Key → Key) (bs nb : Nat) (hn : 0 < nb) :
    ∀ (pages : List (List Key)) (pi : Nat) (acc : List Bucket × Stats),
      acc.1.length = nb →
      (populatePages norm bs nb pages pi acc).1.length = nb
      ∧ tableKeys (populatePages norm bs nb pages pi acc).1
          = tableKeys acc.1 + (pages.flatten : Multiset Key) := by
  intro pages
  induction pages with
  | nil =>
    intro pi acc h
    exact ⟨h, by simp [populatePages]⟩
  | cons pg rest ih =>
    intro pi acc h
    obtain ⟨hfl, hfk⟩ := populateFold_keys norm bs nb pi hn pg acc h
    obtain ⟨hl, hk⟩ := ih (pi + 1) (pg.foldl (populateStep norm bs nb pi) acc) hfl
    refine ⟨hl, ?_⟩
    show tableKeys (populatePages norm bs nb rest (pi + 1)
        (pg.foldl (populateStep norm bs nb pi) acc)).1 = _
    rw [hk, hfk, List.flatten_cons, ← Multiset.coe_add]
    abel

lemma populateStep0_length (bs nb pi : Nat)
    (acc : List (List Entry) × Stats) (w : Key) :
    (populateStep0 bs nb pi acc w).1.length = acc.1.length := by
  simp only [populateStep0]
  split
  · rfl
  · simp [setAt_length]

lemma populateStep0_keys (bs nb pi : Nat)
    (acc : List (List Entry) × Stats) (w : Key) (hn : 0 < nb) (hlen : acc.1.length = nb) :
    flatKeys (populateStep0 bs nb pi acc w).1 = flatKeys acc.1 + {w} := by
  have hi : hashFunction w nb < acc.1.length := by
    rw [hlen]; exact Nat.mod_lt _ hn
  have hb := List.get?_eq_get hi
  simp only [populateStep0, hb]
  apply add_right_cancel
    (b := (((acc.1.get ⟨hashFunction w nb, hi⟩).map Entry.key : List Key) : Multiset Key))
  rw [flatKeys_setAt _ _ _ _ hb, flatBucket_push]
  abel

lemma populateFold0_keys (bs nb pi : Nat) (hn : 0 < nb) :
    ∀ (ws : List Key) (acc : List (List Entry) × Stats), acc.1.length = nb →
      (ws.foldl (populateStep0 bs nb pi) acc).1.length = nb
      ∧ flatKeys (ws.foldl (populateStep0 bs nb pi) acc).1
          = flatKeys acc.1 + (ws : Multiset Key) := by
  intro ws
  induction ws with
  | nil =>
    intro acc h
    exact ⟨h, by simp⟩
  | cons w ws ih =>
    intro acc h
    have hsl : (populateStep0 bs nb pi acc w).1.length = nb := by
      rw [populateStep0_length]; exact h
    obtain ⟨hl, hk⟩ := ih (populateStep0 bs nb pi acc w) hsl
    refine ⟨hl, ?_⟩
    rw [List.foldl_cons, hk, populateStep0_keys bs nb pi acc w hn h,
      ← Multiset.cons_coe, ← Multiset.singleton_add]
    abel

lemma populatePages0_keys (bs nb : Nat) (hn : 0 < nb) :
    ∀ (pages : List (List Key)) (pi : Nat) (acc : List (List Entry) × Stats),
      acc.1.length = nb →
      (populatePages0 bs nb pages pi acc).1.length = nb
      ∧ flatKeys (populatePages0 bs nb pages pi acc).1
          = flatKeys acc.1 + (pages.flatten : Multiset Key) := by
  intro pages
  induction pages with
  | nil =>
    intro pi acc h
    exact ⟨h, by simp [populatePages0]⟩
  | cons pg rest ih =>
    intro pi acc h
    obtain ⟨hfl, hfk⟩ := populateFold0_keys bs nb pi hn pg acc h
    obtain ⟨hl, hk⟩ := ih (pi + 1) (pg.foldl (populateStep0 bs nb pi) acc) hfl
    refine ⟨hl, ?_⟩
    show flatKeys (populatePages0 bs nb rest (pi + 1)
        (pg.foldl (populateStep0 bs nb pi) acc)).1 = _
    rw [hk, hfk, List.flatten_cons, ← Multiset.coe_add]
    abel

lemma tableKeys_mkBuckets (n : Nat) : tableKeys (mkBuckets n) = 0 := by
  induction n with
  | zero => rfl
  | succ n ih =>
    simp only [mkBuckets, List.replicate_succ] at ih ⊢
    simp only [tableKeys, ih]
    rfl

lemma flatKeys_mkFlatBuckets (n : Nat) : flatKeys (mkFlatBuckets n) = 0 := by
  induction n with
  | zero => rfl
  | succ n ih =>
    simp only [mkFlatBuckets, List.replicate_succ] at ih ⊢
    simp only [flatKeys, ih]
    rfl

lemma sumEntries_eq_card (t : List Bucket) :
    sumItems t + sumOverflow t = Multiset.card (tableKeys t) := by
  induction t with
  | nil => rfl
  | cons b t ih =>
    simp only [sumItems, sumOverflow, tableKeys, Multiset.card_add, Multiset.coe_card,
      bucketKeys, List.length_map, List.length_append]
    omega

lemma flatTotal_eq_card (t : List (List Entry)) :
    flatTotal t = Multiset.card (flatKeys t) := by
  induction t with
  | nil => rfl
  | cons b t ih =>
    simp only [flatTotal, flatKeys, Multiset.card_add, Multiset.coe_card,
      List.length_map]
    omega

lemma goodTable_setAt_items {bs : Nat} {l : List Bucket} {b : Bucket} (i : Nat) (e : Entry)
    (hgood : GoodTable bs l)
    (hbov : b.overflow ≠ [] → b.items.length = bs) (hlt : b.items.length < bs) :
    GoodTable bs (setAt l i ⟨b.items ++ [e], b.overflow⟩) := by
  intro x hx
  rcases mem_setAt _ _ _ _ hx with rfl | hx
  · constructor
    · show (b.items ++ [e]).length ≤ bs
      simp only [List.length_append, List.length_cons, List.length_nil]
      omega
    · intro hne
      exact absurd (hbov hne) (by omega)
  · exact hgood x hx

lemma goodTable_setAt_overflow {bs : Nat} {l : List Bucket} {b : Bucket} (i : Nat) (e : Entry)
    (hgood : GoodTable bs l) (hfull : b.items.length = bs) :
    GoodTable bs (setAt l i ⟨b.items, b.overflow ++ [e]⟩) := by
  intro x hx
  rcases mem_setAt _ _ _ _ hx with rfl | hx
  · refine ⟨?_, fun _ => hfull⟩
    show b.items.length ≤ bs
    omega
  · exact hgood x hx

lemma populateStep_inv (norm : Key → Key) (bs nb pi : Nat)
    (acc : List Bucket × Stats) (w : Key) (h : StatsInv bs acc) :
    StatsInv bs (populateStep norm bs nb pi acc w) := by
  obtain ⟨hgood, hov, hcol⟩ := h
  rcases hget : acc.1.get? (hashFunction (norm w) nb) with _ | b
  · have hstep : populateStep norm bs nb pi acc w = acc := by
      simp only [populateStep, hget]
    rw [hstep]
    exact ⟨hgood, hov, hcol⟩
  · have hmem : b ∈ acc.1 := List.get?_mem hget
    obtain ⟨hble, hbov⟩ := hgood b hmem
    have hsiA := sumItems_setAt acc.1 (hashFunction (norm w) nb) b
      ⟨b.items ++ [⟨w, pi⟩], b.overflow⟩ hget
    have hsoA := sumOverflow_setAt acc.1 (hashFunction (norm w) nb) b
      ⟨b.items ++ [⟨w, pi⟩], b.overflow⟩ hget
    have hneA := nonEmptyBuckets_setAt acc.1 (hashFunction (norm w) nb) b
      ⟨b.items ++ [⟨w, pi⟩], b.overflow⟩ hget
    have hsiC := sumItems_setAt acc.1 (hashFunction (norm w) nb) b
      ⟨b.items, b.overflow ++ [⟨w, pi⟩]⟩ hget
    have hsoC := sumOverflow_setAt acc.1 (hashFunction (norm w) nb) b
      ⟨b.items, b.overflow ++ [⟨w, pi⟩]⟩ hget
    have hneC := nonEmptyBuckets_setAt acc.1 (hashFunction (norm w) nb) b
      ⟨b.items, b.overflow ++ [⟨w, pi⟩]⟩ hget
    dsimp only at hsiA hsoA hneA hsiC hsoC hneC
    simp only [List.length_append, List.length_cons, List.length_nil] at hsiA hsoA hsiC hsoC
    have happ : (b.items ++ [(⟨w, pi⟩ : Entry)] : List Entry) ≠ [] := by simp
    rw [if_neg happ] at hneA
    by_cases hlt : b.items.length < bs
    · by_cases hpos : 0 < b.items.length
      · have hbne : b.items ≠ [] := by
          intro hemp
          rw [hemp] at hpos
          simp at hpos
        rw [if_neg hbne] at hneA
        have hstep : populateStep norm bs nb pi acc w
            = (setAt acc.1 (hashFunction (norm w) nb) ⟨b.items ++ [⟨w, pi⟩], b.overflow⟩,
                ⟨acc.2.collisions + 1, acc.2.overflows⟩) := by
          simp only [populateStep, hget, if_pos hlt, if_pos hpos]
        rw [hstep]
        refine ⟨goodTable_setAt_items _ _ hgood hbov hlt, ?_, ?_⟩
        · show acc.2.overflows
              = sumOverflow (setAt acc.1 (hashFunction (norm w) nb)
                  ⟨b.items ++ [⟨w, pi⟩], b.overflow⟩)
          omega
        · show acc.2.collisions + 1
              + nonEmptyBuckets (setAt acc.1 (hashFunction (norm w) nb)
                  ⟨b.items ++ [⟨w, pi⟩], b.overflow⟩)
              = sumItems (setAt acc.1 (hashFunction (norm w) nb)
                  ⟨b.items ++ [⟨w, pi⟩], b.overflow⟩)
          omega
      · have hbe : b.items = [] := by
          cases hb : b.items with
          | nil => rfl
          | cons y ys => rw [hb] at hpos; simp at hpos
        rw [if_pos hbe] at hneA
        have hstep : populateStep norm bs nb pi acc w
            = (setAt acc.1 (hashFunction (norm w) nb) ⟨b.items ++ [⟨w, pi⟩], b.overflow⟩,
                acc.2) := by
          simp only [populateStep, hget, if_pos hlt, if_neg hpos]
        rw [hstep]
        refine ⟨goodTable_setAt_items _ _ hgood hbov hlt, ?_, ?_⟩
        · show acc.2.overflows
              = sumOverflow (setAt acc.1 (hashFunction (norm w) nb)
                  ⟨b.items ++ [⟨w, pi⟩], b.overflow⟩)
          omega
        · show acc.2.collisions
              + nonEmptyBuckets (setAt acc.1 (hashFunction (norm w) nb)
                  ⟨b.items ++ [⟨w, pi⟩], b.overflow⟩)
              = sumItems (setAt acc.1 (hashFunction (norm w) nb)
                  ⟨b.items ++ [⟨w, pi⟩], b.overflow⟩)
          omega
    · have hfull : b.items.length = bs := by omega
      have hstep : populateStep norm bs nb pi acc w
          = (setAt acc.1 (hashFunction (norm w) nb) ⟨b.items, b.overflow ++ [⟨w, pi⟩]⟩,
              ⟨acc.2.collisions, acc.2.overflows + 1⟩) := by
        simp only [populateStep, hget, if_neg hlt]
      rw [hstep]
      refine ⟨goodTable_setAt_overflow _ _ hgood hfull, ?_, ?_⟩
      · show acc.2.overflows + 1
            = sumOverflow (setAt acc.1 (hashFunction (norm w) nb)
                ⟨b.items, b.overflow ++ [⟨w, pi⟩]⟩)
        omega
      · show acc.2.collisions
            + nonEmptyBuckets (setAt acc.1 (hashFunction (norm w) nb)
                ⟨b.items, b.overflow ++ [⟨w, pi⟩]⟩)
            = sumItems (setAt acc.1 (hashFunction (norm w) nb)
                ⟨b.items, b.overflow ++ [⟨w, pi⟩]⟩)
        omega

lemma populateFold_inv (norm : Key → Key) (bs nb pi : Nat) :
    ∀ (ws : List Key) (acc : List Bucket × Stats), StatsInv bs acc →
      StatsInv bs (ws.foldl (populateStep norm bs nb pi) acc) := by
  intro ws
  induction ws with
  | nil => intro acc h; exact h
  | cons w ws ih =>
    intro acc h
    exact ih _ (populateStep_inv norm bs nb pi acc w h)

lemma populatePages_inv (norm : Key → Key) (bs nb : Nat) :
    ∀ (pages : List (List Key)) (pi : Nat) (acc : List Bucket × Stats),
      StatsInv bs acc → StatsInv bs (populatePages norm bs nb pages pi acc) := by
  intro pages
  induction pages with
  | nil => intro pi acc h; exact h
  | cons pg rest ih =>
    intro pi acc h
    exact ih (pi + 1) _ (populateFold_inv norm bs nb pi pg acc h)

lemma sumItems_mkBuckets (n : Nat) : sumItems (mkBuckets n) = 0 := by
  induction n with
  | zero => rfl
  | succ n ih =>
    simp only [mkBuckets, List.replicate_succ] at ih ⊢
    simp only [sumItems, ih]
    rfl

lemma sumOverflow_mkBuckets (n : Nat) : sumOverflow (mkBuckets n) = 0 := by
  induction n with
  | zero => rfl
  | succ n ih =>
    simp only [mkBuckets, List.replicate_succ] at ih ⊢
    simp only [sumOverflow, ih]
    rfl

lemma nonEmptyBuckets_mkBuckets (n : Nat) : nonEmptyBuckets (mkBuckets n) = 0 := by
  induction n with
  | zero => rfl
  | succ n ih =>
    simp only [mkBuckets, List.replicate_succ] at ih ⊢
    simp only [nonEmptyBuckets, ih]
    rfl

/-! ## Claim theorems -/

/-- **C2** (indexed-lookup cost model): whenever a lookup completes normally
(in either the bucketed `searchWithIndex` of variants 1/2 or the flat-bucket
variant 0), its cost is 1 for the single bucket probe plus 1 exactly when the
key is found, and on a miss the cost equals the number of buckets visited,
which is always 1 — the implementations store overflow entries inline in the
probed bucket record and charge no unit for reading them, so the overflow
chain contributes zero additional bucket visits. -/
theorem c2_lookup_cost (numBuckets : Nat) (table : List Bucket)
    (ftable : List (List Entry)) (key : Key) (_hk : key ≠ []) :
    (∀ r : QueryResult, searchWithIndex numBuckets table key = .ok r →
        r.cost = (if r.found = true then 2 else 1) ∧ (r.found = false → r.cost = 1))
    ∧ (∀ r : QueryResult, searchWithIndex0 numBuckets ftable key = .ok r →
        r.cost = (if r.found = true then 2 else 1) ∧ (r.found = false → r.cost = 1)) :=
  ⟨fun _ h => searchWithIndex_ok_cost h, fun _ h => searchWithIndex0_ok_cost h⟩

/-- Witness for `c2_lookup_cost`: a one-word index in which the word is found
with cost 2. -/
theorem c2_lookup_cost_witness :
    ((⟨true, some 0, 2⟩ : QueryResult).cost
        = (if (⟨true, some 0, 2⟩ : QueryResult).found = true then 2 else 1)
      ∧ ((⟨true, some 0, 2⟩ : QueryResult).found = false
          → (⟨true, some 0, 2⟩ : QueryResult).cost = 1))
    ∧ ((⟨true, some 0, 2⟩ : QueryResult).cost
        = (if (⟨true, some 0, 2⟩ : QueryResult).found = true then 2 else 1)
      ∧ ((⟨true, some 0, 2⟩ : QueryResult).found = false
          → (⟨true, some 0, 2⟩ : QueryResult).cost = 1)) :=
  ⟨(c2_lookup_cost 1 [⟨[⟨[97], 0⟩], []⟩] [[⟨[97], 0⟩]] [97] (by decide)).1
      ⟨true, some 0, 2⟩ rfl,
   (c2_lookup_cost 1 [⟨[⟨[97], 0⟩], []⟩] [[⟨[97], 0⟩]] [97] (by decide)).2
      ⟨true, some 0, 2⟩ rfl⟩

/-- **C3** (sequential-scan behaviour): both table scans visit pages in id
order, charge one unit per page visited (the final one included), stop at the
first page containing a match and report its id, and report not-found with
cost equal to the total page count when no page matches. -/
theorem c3_scan_behaviour (pages : List (List Key)) (key : Key) (_hk : key ≠ []) :
    ScanBehaviour pages (fun w => toLower w == toLower key) (performTableScan pages key)
    ∧ ScanBehaviour pages (fun w => w == key) (performTableScan0 pages key) := by
  constructor
  · have hdef : performTableScan pages key
        = scanLoop (fun w => toLower w == toLower key) pages 0 0 := rfl
    unfold ScanBehaviour
    rcases scanLoop_spec (fun w => toLower w == toLower key) pages 0 0 with
      ⟨hall, heq⟩ | ⟨j, hj, hmat, hbef, heq⟩
    · left
      constructor
      · rw [hdef, heq, Nat.zero_add]
      · intro pg hpg w hw
        exact (any_false_iff pg _).mp (hall pg hpg) w hw
    · right
      refine ⟨j, hj, ?_, ?_, ?_⟩
      · rw [hdef, heq, Nat.zero_add, Nat.zero_add]
      · exact List.any_eq_true.mp hmat
      · intro k hkj w hw
        exact (any_false_iff _ _).mp (hbef k hkj) w hw
  · have hdef : performTableScan0 pages key
        = scanLoop (fun w => w == key) pages 0 0 := rfl
    unfold ScanBehaviour
    rcases scanLoop_spec (fun w => w == key) pages 0 0 with
      ⟨hall, heq⟩ | ⟨j, hj, hmat, hbef, heq⟩
    · left
      constructor
      · rw [hdef, heq, Nat.zero_add]
      · intro pg hpg w hw
        exact (any_false_iff pg _).mp (hall pg hpg) w hw
    · right
      refine ⟨j, hj, ?_, ?_, ?_⟩
      · rw [hdef, heq, Nat.zero_add, Nat.zero_add]
      · exact List.any_eq_true.mp hmat
      · intro k hkj w hw
        exact (any_false_iff _ _).mp (hbef k hkj) w hw

/-- Witness for `c3_scan_behaviour`: a one-page, one-word state. -/
theorem c3_scan_behaviour_witness :
    ScanBehaviour [[[97]]] (fun w => toLower w == toLower [97])
      (performTableScan [[[97]]] [97])
    ∧ ScanBehaviour [[[97]]] (fun w => w == [97]) (performTableScan0 [[[97]]] [97]) :=
  c3_scan_behaviour [[[97]]] [97] (by decide)

/-- **C4** (page-count-mode pagination): for a non-empty key list and a
requested page count `N ≥ 1`, `createPages` with
`wordsPerPage = ceil(totalKeys / N)` cuts the keys into consecutive windows
whose concatenation is exactly the input, every window except possibly the
last has exactly `wordsPerPage` keys (none has more), and at most `N` pages
are produced. -/
theorem c4_pagination (keys : List Key) (N : Nat) (hk : keys ≠ []) (hN : 1 ≤ N) :
    (createPages (ceilDiv keys.length N) keys).flatten = keys
    ∧ (∀ p ∈ (createPages (ceilDiv keys.length N) keys).dropLast,
        p.length = ceilDiv keys.length N)
    ∧ (∀ p ∈ createPages (ceilDiv keys.length N) keys,
        p.length ≤ ceilDiv keys.length N)
    ∧ (createPages (ceilDiv keys.length N) keys).length ≤ N := by
  have hT : 0 < keys.length := List.length_pos.mpr hk
  have hw : 0 < ceilDiv keys.length N := ceilDiv_pos hN hT
  refine ⟨createPages_flatten hw keys, ?_, ?_, ?_⟩
  · exact fun p hp => createPagesAux_dropLast hw keys.length keys le_rfl p hp
  · exact fun p hp => createPagesAux_chunk_le keys.length keys p hp
  · rw [createPages_length_eq hw]
    exact ceilDiv_le_of_le hw (le_mul_ceilDiv hN keys.length)

/-- Witness for `c4_pagination`: five keys split into 2 requested pages
(window size 3, pages of sizes 3 and 2). -/
theorem c4_pagination_witness :
    (createPages (ceilDiv ([[97], [98], [99], [100], [101]] : List Key).length 2)
        [[97], [98], [99], [100], [101]]).flatten = [[97], [98], [99], [100], [101]]
    ∧ (∀ p ∈ (createPages (ceilDiv ([[97], [98], [99], [100], [101]] : List Key).length 2)
          [[97], [98], [99], [100], [101]]).dropLast,
        p.length = ceilDiv ([[97], [98], [99], [100], [101]] : List Key).length 2)
    ∧ (∀ p ∈ createPages (ceilDiv ([[97], [98], [99], [100], [101]] : List Key).length 2)
          [[97], [98], [99], [100], [101]],
        p.length ≤ ceilDiv ([[97], [98], [99], [100], [101]] : List Key).length 2)
    ∧ (createPages (ceilDiv ([[97], [98], [99], [100], [101]] : List Key).length 2)
        [[97], [98], [99], [100], [101]]).length ≤ 2 :=
  c4_pagination [[97], [98], [99], [100], [101]] 2 (by decide) (by decide)

/-- **C5** (hash determinism and range): `hashFunction` is a pure function of
the key contents and the bucket count — equal inputs give equal outputs — and
for any bucket count `n ≥ 1` its value lies in `[0, n)` (being a `Nat`, it is
never negative). -/
theorem c5_hash_deterministic_range (k k' : Key) (n : Nat) (hkk : k = k') (hn : 0 < n) :
    hashFunction k n = hashFunction k' n ∧ hashFunction k n < n := by
  subst hkk
  exact ⟨rfl, Nat.mod_lt _ hn⟩

/-- Witness for `c5_hash_deterministic_range` on the key "db" and 7 buckets. -/
theorem c5_hash_deterministic_range_witness :
    hashFunction [100, 98] 7 = hashFunction [100, 98] 7 ∧ hashFunction [100, 98] 7 < 7 :=
  c5_hash_deterministic_range [100, 98] [100, 98] 7 rfl (by decide)

/-- **C6 counterexample**: the input string `"3.7"` is not an integer
numeral, yet `handleBuildIndex` raises no `InvalidParameter` error
(`parseInt` silently truncates it to `3`) and rebuilds the state. This
refutes the claim that every non-integer parameter fails before any page or
bucket is allocated. -/
theorem c6_counterexample :
    (handleBuildIndex ['3', '.', '7']
        [[97]] initialState).1 = none
    ∧ (handleBuildIndex ['3', '.', '7']
        [[97]] initialState).2 ≠ initialState := by
  constructor
  · rfl
  · decide

/-- **C6 amended** (invalid-parameter handling): whenever the pagination
input parses to `NaN` (missing or without a leading integer prefix) or to a
value `≤ 0`, `handleBuildIndex` fails with `InvalidParameter` before any
page or bucket is allocated and leaves the previous application state
completely unchanged. (Positive non-integer numerals such as `"3.7"` are
truncated and accepted instead — see `c6_counterexample`.) -/
theorem c6_invalid_parameter (input : List Char) (fileWords : List Key) (st : AppState)
    (h : jsParseInt input = none ∨ ∃ v, jsParseInt input = some v ∧ v ≤ 0) :
    handleBuildIndex input fileWords st = (some .invalidParameter, st) := by
  unfold handleBuildIndex
  rcases h with h | ⟨v, hv, hv0⟩
  · rw [h]
  · rw [hv]
    simp [hv0]

/-- Witness for `c6_invalid_parameter`: the input `"0"`. -/
theorem c6_invalid_parameter_witness :
    handleBuildIndex ['0'] [[97]] initialState
      = (some .invalidParameter, initialState) :=
  c6_invalid_parameter ['0'] [[97]] initialState
    (Or.inr ⟨0, rfl, by decide⟩)

/-- **C9 counterexample**: running the sequential scan before any build (on
the initial state, whose page list is empty) does not fail at all — it
completes normally with `found = false` and cost 0 — contradicting the claim
that a query before build fails explicitly with a `QueryBeforeBuild`-style
error. -/
theorem c9_counterexample :
    performTableScan initialState.pages [113] = ⟨false, none, 0⟩ := rfl

/-- **C9 amended** (query before build): with no build performed,
`searchWithIndex` crashes with an untyped `TypeError` (the `NaN` bucket index
produced by `% 0` selects an `undefined` bucket) rather than a designed
`QueryBeforeBuild` error, while `performTableScan` does not fail at all: it
silently scans the empty page list and reports not-found with cost 0. -/
theorem c9_query_before_build (key : Key) (_hk : key ≠ []) :
    searchWithIndex initialState.numBuckets initialState.table key = .error .typeError
    ∧ performTableScan initialState.pages key = ⟨false, none, 0⟩ :=
  ⟨rfl, rfl⟩

/-- Witness for `c9_query_before_build` on the key "x". -/
theorem c9_query_before_build_witness :
    searchWithIndex initialState.numBuckets initialState.table [120] = .error .typeError
    ∧ performTableScan initialState.pages [120] = ⟨false, none, 0⟩ :=
  c9_query_before_build [120] (by decide)

/-- **C1** (round-trip retrieval, code-bug evaluation): in variant 2 the word
"A" (`[65]`) is inserted from page 0 of the build over
`["A","b","c","d","e","f"]` with 2 requested pages, but `searchWithIndex` on
the very same key returns `found = false` — the build hashed the raw word
(bucket 0 of 3) while the lookup hashes the lowercased key (bucket 1 of 3),
so the claimed round-trip property fails on the code. -/
theorem c1_roundtrip_broken :
    [65] ∈ (buildIndex2 [[65], [98], [99], [100], [101], [102]] 2).pages.getD 0 []
    ∧ searchWithIndex (buildIndex2 [[65], [98], [99], [100], [101], [102]] 2).numBuckets
        (buildIndex2 [[65], [98], [99], [100], [101], [102]] 2).table [65]
      = .ok ⟨false, none, 1⟩ :=
  ⟨by decide, rfl⟩

/-- **C8** (key conservation): after a variant-1 build (and likewise a
variant-0 build) from any word list with a validated page count `N ≥ 1`, the
multiset of keys stored across all buckets (primary and overflow areas)
equals exactly the multiset of input words — every input key occurrence
occupies exactly one entry in exactly one bucket — and the total number of
entries equals `totalKeys`, which also equals the sum of all page sizes. -/
theorem c8_key_conservation (words : List Key) (N : Nat) (hN : 1 ≤ N) :
    tableKeys (buildIndex1 words N).table = (words : Multiset Key)
    ∧ sumItems (buildIndex1 words N).table + sumOverflow (buildIndex1 words N).table
        = words.length
    ∧ ((buildIndex1 words N).pages.map List.length).sum = words.length
    ∧ flatKeys (buildIndex0 words N).ftable = (words : Multiset Key)
    ∧ flatTotal (buildIndex0 words N).ftable = words.length := by
  by_cases hw : words = []
  · subst hw
    exact ⟨rfl, rfl, rfl, rfl, rfl⟩
  · have hT : 0 < words.length := List.length_pos.mpr hw
    have hwpp : 0 < ceilDiv words.length N := ceilDiv_pos hN hT
    have hflat : (createPages (ceilDiv words.length N) words).flatten = words :=
      createPages_flatten hwpp words
    obtain ⟨hl1, hk1⟩ := populatePages_keys toLower 5 words.length hT
      (createPages (ceilDiv words.length N) words) 0
      (mkBuckets words.length, (⟨0, 0⟩ : Stats)) (by simp [mkBuckets])
    have hk1' : tableKeys (populatePages toLower 5 words.length
        (createPages (ceilDiv words.length N) words) 0
        (mkBuckets words.length, (⟨0, 0⟩ : Stats))).1
        = tableKeys (mkBuckets words.length)
          + ((createPages (ceilDiv words.length N) words).flatten : Multiset Key) := hk1
    have htable : (buildIndex1 words N).table
        = (populatePages toLower 5 words.length
            (createPages (ceilDiv words.length N) words) 0
            (mkBuckets words.length, (⟨0, 0⟩ : Stats))).1 := rfl
    have h1 : tableKeys (buildIndex1 words N).table = (words : Multiset Key) := by
      rw [htable, hk1', tableKeys_mkBuckets, hflat, zero_add]
    have h2 : sumItems (buildIndex1 words N).table
        + sumOverflow (buildIndex1 words N).table = words.length := by
      rw [sumEntries_eq_card, h1, Multiset.coe_card]
    have hpages : (buildIndex1 words N).pages
        = createPages (ceilDiv words.length N) words := rfl
    have h3 : ((buildIndex1 words N).pages.map List.length).sum = words.length := by
      rw [hpages, ← List.length_flatten, hflat]
    obtain ⟨hl0, hk0⟩ := populatePages0_keys 5 (ceilDiv words.length 5 + 1)
      (Nat.succ_pos _) (createPages (ceilDiv words.length N) words) 0
      (mkFlatBuckets (ceilDiv words.length 5 + 1), (⟨0, 0⟩ : Stats))
      (by simp [mkFlatBuckets])
    have hk0' : flatKeys (populatePages0 5 (ceilDiv words.length 5 + 1)
        (createPages (ceilDiv words.length N) words) 0
        (mkFlatBuckets (ceilDiv words.length 5 + 1), (⟨0, 0⟩ : Stats))).1
        = flatKeys (mkFlatBuckets (ceilDiv words.length 5 + 1))
          + ((createPages (ceilDiv words.length N) words).flatten : Multiset Key) := hk0
    have hftable : (buildIndex0 words N).ftable
        = (populatePages0 5 (ceilDiv words.length 5 + 1)
            (createPages (ceilDiv words.length N) words) 0
            (mkFlatBuckets (ceilDiv words.length 5 + 1), (⟨0, 0⟩ : Stats))).1 := rfl
    have h4 : flatKeys (buildIndex0 words N).ftable = (words : Multiset Key) := by
      rw [hftable, hk0', flatKeys_mkFlatBuckets, hflat, zero_add]
    have h5 : flatTotal (buildIndex0 words N).ftable = words.length := by
      rw [flatTotal_eq_card, h4, Multiset.coe_card]
    exact ⟨h1, h2, h3, h4, h5⟩

/-- Witness for `c8_key_conservation`: three words split into 2 requested
pages. -/
theorem c8_key_conservation_witness :
    tableKeys (buildIndex1 [[104], [105], [106]] 2).table
        = ([[104], [105], [106]] : List Key)
    ∧ sumItems (buildIndex1 [[104], [105], [106]] 2).table
        + sumOverflow (buildIndex1 [[104], [105], [106]] 2).table
        = ([[104], [105], [106]] : List Key).length
    ∧ ((buildIndex1 [[104], [105], [106]] 2).pages.map List.length).sum
        = ([[104], [105], [106]] : List Key).length
    ∧ flatKeys (buildIndex0 [[104], [105], [106]] 2).ftable
        = ([[104], [105], [106]] : List Key)
    ∧ flatTotal (buildIndex0 [[104], [105], [106]] 2).ftable
        = ([[104], [105], [106]] : List Key).length :=
  c8_key_conservation [[104], [105], [106]] 2 (by decide)

/-- **C10** (implemented placement and statistics policy): for every
normalization function, bucket capacity, bucket count and page list, the
table produced by `populateHashTable` of variants 1/2 (started, as in the
build flow, from the freshly created buckets) satisfies: primary areas never
exceed `bucketSize` and an entry sits in an overflow area only when its
bucket's primary area is exactly full; `stats.overflows` equals the total
number of entries stored across all overflow areas; and `stats.collisions`
plus the number of non-empty primary buckets equals the number of primary
entries — i.e. collisions are counted per insertion into a non-empty,
not-yet-full primary bucket, not per bucket. -/
theorem c10_stats_policy (norm : Key → Key) (bucketSize numBuckets : Nat)
    (pages : List (List Key)) :
    StatsInv bucketSize
      (populateHashTable norm bucketSize numBuckets pages (mkBuckets numBuckets)) := by
  have hinit : StatsInv bucketSize
      ((mkBuckets numBuckets, ⟨0, 0⟩) : List Bucket × Stats) := by
    refine ⟨?_, ?_, ?_⟩
    · intro b hb
      have hbe : b = emptyBucket := List.eq_of_mem_replicate hb
      subst hbe
      exact ⟨Nat.zero_le _, fun hne => absurd rfl hne⟩
    · show (0 : Nat) = sumOverflow (mkBuckets numBuckets)
      rw [sumOverflow_mkBuckets]
    · show (0 : Nat) + nonEmptyBuckets (mkBuckets numBuckets)
          = sumItems (mkBuckets numBuckets)
      rw [nonEmptyBuckets_mkBuckets, sumItems_mkBuckets]
  exact populatePages_inv norm bucketSize numBuckets pages 0 _ hinit

/-- **C7** (scan/lookup agreement, code-bug evaluation): on the variant-2
state built from `["A","b","c","d","e","f"]` with 2 requested pages, the
indexed lookup of "A" reports `found = false` while the sequential scan of
the same key reports `found = true` on page 0 — the two strategies disagree
because build-time and query-time hashing normalize case differently. -/
theorem c7_agreement_broken :
    searchWithIndex (buildIndex2 [[65], [98], [99], [100], [101], [102]] 2).numBuckets
        (buildIndex2 [[65], [98], [99], [100], [101], [102]] 2).table [65]
      = .ok ⟨false, none, 1⟩
    ∧ performTableScan (buildIndex2 [[65], [98], [99], [100], [101], [102]] 2).pages [65]
      = ⟨true, some 0, 1⟩ :=
  ⟨rfl, rfl⟩

end IndexHash
